import Mathlib

/-!
Verification of the S9 hash-board controller core
(`open/bosminer/src/hal/s9/mod.rs`).

The Rust driver is shallowly embedded: machine integers become `Nat` with an
explicit `% 2 ^ w` where wrap-around matters, memory-mapped registers and
FIFOs become explicit state records and write logs, and fallible hardware
interactions (FIFO reads, voltage-controller heartbeats) become `Except`
values supplied by the environment.
-/

namespace S9

/-- Constant `WORK_ID_OFFSET`: bit position where the work ID starts in the
second result word provided by the IP core. -/
def WORK_ID_OFFSET : Nat := 8

/-- Constant `MAX_CHIPS_ON_CHAIN`. -/
def MAX_CHIPS_ON_CHAIN : Nat := 64

/-- `HChainCtl::get_work_id_from_result_id`:
`(result_id >> WORK_ID_OFFSET) >> self.midstate_count_bits`. -/
def get_work_id_from_result_id (midstate_count_bits result_id : Nat) : Nat :=
  (result_id >>> WORK_ID_OFFSET) >>> midstate_count_bits

/-- `HChainCtl::get_midstate_idx_from_result_id`:
`(result_id >> WORK_ID_OFFSET) & ((1u32 << self.midstate_count_bits) - 1)`. -/
def get_midstate_idx_from_result_id (midstate_count_bits result_id : Nat) : Nat :=
  (result_id >>> WORK_ID_OFFSET) &&& ((1 <<< midstate_count_bits) - 1)

/-- `HChainCtl::get_solution_idx_from_result_id`:
`result_id & ((1u32 << WORK_ID_OFFSET) - 1)`. -/
def get_solution_idx_from_result_id (result_id : Nat) : Nat :=
  result_id &&& ((1 <<< WORK_ID_OFFSET) - 1)

/-- Bit-level decomposition: recombining the three decoded fields with the
layout `(work_id << (8+m)) | (midstate_idx << 8) | solution_idx` gives back
the original result id, for every midstate-bit count `m`. -/
lemma result_id_decompose (m id : Nat) :
    ((get_work_id_from_result_id m id) <<< (8 + m)) |||
      ((get_midstate_idx_from_result_id m id) <<< 8) |||
      get_solution_idx_from_result_id id = id := by
  apply Nat.eq_of_testBit_eq
  intro i
  simp only [get_work_id_from_result_id, get_midstate_idx_from_result_id,
    get_solution_idx_from_result_id, WORK_ID_OFFSET, Nat.one_shiftLeft,
    Nat.testBit_or, Nat.testBit_shiftLeft, Nat.testBit_shiftRight,
    Nat.testBit_and, Nat.testBit_two_pow_sub_one]
  by_cases h1 : i < 8
  · simp [show ¬ (i ≥ 8 + m) by omega, show ¬ (i ≥ 8) by omega, h1]
  · by_cases h2 : i < 8 + m
    · have e : 8 + (i - 8) = i := by omega
      simp [e, show ¬ (i ≥ 8 + m) by omega, show i ≥ 8 by omega,
        show i - 8 < m by omega, h1]
    · have e1 : 8 + (m + (i - (8 + m))) = i := by omega
      have e2 : 8 + (i - 8) = i := by omega
      simp [e1, e2, show i ≥ 8 + m by omega, show i ≥ 8 by omega,
        show ¬ (i - 8 < m) by omega, h1]

/-- C1: for every 32-bit `result_id` and every `midstate_count_bits ∈ {0,1,2}`,
the solution index is below 256, the midstate index is below `1 << mbits`, and
the three decoded fields recombine to the original id via
`(work_id << (8+mbits)) | (midstate_idx << 8) | solution_idx`; moreover for
`id = 0x00123502` and `mbits = 0` the decoded triple is `(0x1235, 0, 2)`. -/
theorem C1_result_id_decoding (id mbits : Nat) (hid : id < 2 ^ 32) (hm : mbits ≤ 2) :
    get_solution_idx_from_result_id id < 256 ∧
    get_midstate_idx_from_result_id mbits id < (1 <<< mbits) ∧
    id = ((get_work_id_from_result_id mbits id) <<< (8 + mbits)) |||
        ((get_midstate_idx_from_result_id mbits id) <<< 8) |||
        get_solution_idx_from_result_id id ∧
    get_work_id_from_result_id 0 0x00123502 = 0x1235 ∧
    get_midstate_idx_from_result_id 0 0x00123502 = 0 ∧
    get_solution_idx_from_result_id 0x00123502 = 2 := by
  refine ⟨?_, ?_, (result_id_decompose mbits id).symm, by decide, by decide, by decide⟩
  · calc get_solution_idx_from_result_id id ≤ (1 <<< WORK_ID_OFFSET) - 1 := Nat.and_le_right
    _ < 256 := by decide
  · calc get_midstate_idx_from_result_id mbits id
        ≤ (1 <<< mbits) - 1 := Nat.and_le_right
    _ < 1 <<< mbits := by
        rw [Nat.one_shiftLeft]
        exact Nat.sub_lt (Nat.two_pow_pos mbits) Nat.one_pos

/-- Witness for C1 at `id = 0x00123502`, `mbits = 0`. -/
theorem C1_result_id_decoding_witness :
    (0x00123502 : Nat) < 2 ^ 32 ∧ (0 : Nat) ≤ 2 ∧
    (get_solution_idx_from_result_id 0x00123502 < 256 ∧
     get_midstate_idx_from_result_id 0 0x00123502 < (1 <<< 0) ∧
     (0x00123502 : Nat) =
        ((get_work_id_from_result_id 0 0x00123502) <<< (8 + 0)) |||
        ((get_midstate_idx_from_result_id 0 0x00123502) <<< 8) |||
        get_solution_idx_from_result_id 0x00123502 ∧
     get_work_id_from_result_id 0 0x00123502 = 0x1235 ∧
     get_midstate_idx_from_result_id 0 0x00123502 = 0 ∧
     get_solution_idx_from_result_id 0x00123502 = 2) :=
  ⟨by decide, by decide, C1_result_id_decoding 0x00123502 0 (by decide) (by decide)⟩

/-- Kind of an `io::Error`; the driver's control flow only distinguishes
`TimedOut` from every other kind. -/
inductive IoKind where
  | timedOut
  | other
  deriving DecidableEq, Repr

/-- An `io::Error`, abstracted to its kind (the error message plays no role
in the control flow). -/
structure IoErr where
  kind : IoKind
  deriving DecidableEq, Repr

/-- The mutable fields of `HChainCtl` that the work pipeline uses:
`work_id` is the 16-bit counter (kept reduced modulo `2^16` by
`next_work_id`), `chip_count` the number of enumerated chips,
`midstate_count_bits` the configured midstate bit count. -/
structure HChainCtl where
  work_id : Nat
  chip_count : Nat
  midstate_count_bits : Nat
  deriving DecidableEq, Repr

/-- `HChainCtl::next_work_id`: returns the current counter zero-extended to
u32 and advances it by `1 << self.midstate_count_bits` with u16 wrap-around. -/
def next_work_id (s : HChainCtl) : Nat × HChainCtl :=
  (s.work_id,
    { s with work_id := (s.work_id + (1 <<< s.midstate_count_bits)) % 2 ^ 16 })

/-- `uint::U256`: four 64-bit limbs, least significant first. -/
structure U256 where
  limbs : List Nat
  deriving DecidableEq, Repr

/-- `HChainCtl::u256_as_u32_slice`: reinterprets the four little-endian u64
limbs as eight u32 words in native (little-endian) word order. -/
def u256_as_u32_slice (src : U256) : List Nat :=
  (List.range 8).map fun j => (src.limbs.getD (j / 2) 0 >>> (32 * (j % 2))) % 2 ^ 32

/-- `hal::MiningWork` (the fields consumed by `send_work`). -/
structure MiningWork where
  nbits : Nat
  ntime : Nat
  merkel_root_lsw : Nat
  midstates : List U256
  deriving DecidableEq, Repr

/-- `HChainCtl::write_to_work_tx_fifo` modelled on a write log: the spin
wait on `work_tx_full` terminates and the word is appended to the work TX
FIFO. -/
def write_to_work_tx_fifo (log : List Nat) (item : Nat) : List Nat :=
  log ++ [item]

/-- `HardwareCtl::send_work` for `HChainCtl`. The heartbeat step
(`send_voltage_ctrl_heart_beat`, whose voltage-controller backend lives
outside this module) is abstracted to its outcome `hb`. Returns the result,
the new driver state and the log of words written to the work TX FIFO,
following the source order: `next_work_id` first, then the heartbeat, then
the FIFO writes, each midstate written in reverse word order. -/
def send_work (s : HChainCtl) (hb : Except IoErr Unit) (work : MiningWork) :
    Except IoErr Nat × HChainCtl × List Nat :=
  let p := next_work_id s
  match hb with
  | .error e => (.error e, p.2, [])
  | .ok _ =>
    let log := write_to_work_tx_fifo [] p.1
    let log := write_to_work_tx_fifo log work.nbits
    let log := write_to_work_tx_fifo log work.ntime
    let log := write_to_work_tx_fifo log work.merkel_root_lsw
    let log := work.midstates.foldl
      (fun acc m => ((u256_as_u32_slice m).reverse).foldl write_to_work_tx_fifo acc) log
    (.ok p.1, p.2, log)

/-- Folding the FIFO write over a word list appends the list to the log. -/
lemma foldl_write_eq_append (l acc : List Nat) :
    l.foldl write_to_work_tx_fifo acc = acc ++ l := by
  induction l generalizing acc with
  | nil => simp
  | cons x xs ih => simp [write_to_work_tx_fifo, ih]

/-- Folding the per-midstate writes appends each midstate's reversed word
list in sequence. -/
lemma foldl_midstates_eq_append (ms : List U256) (acc : List Nat) :
    ms.foldl
        (fun acc m => ((u256_as_u32_slice m).reverse).foldl write_to_work_tx_fifo acc) acc
      = acc ++ ms.flatMap (fun m => (u256_as_u32_slice m).reverse) := by
  induction ms generalizing acc with
  | nil => simp
  | cons m ms ih =>
    rw [List.foldl_cons, foldl_write_eq_append, ih]
    simp

/-- Closed form of a `send_work` whose heartbeat step succeeds. -/
lemma send_work_ok_eq (s : HChainCtl) (work : MiningWork) :
    send_work s (.ok ()) work =
      (.ok s.work_id,
       { s with work_id := (s.work_id + (1 <<< s.midstate_count_bits)) % 2 ^ 16 },
       [s.work_id, work.nbits, work.ntime, work.merkel_root_lsw] ++
         work.midstates.flatMap (fun m => (u256_as_u32_slice m).reverse)) := by
  simp only [send_work, next_work_id]
  rw [foldl_midstates_eq_append]
  simp [write_to_work_tx_fifo]

/-- C5: for a work whose midstates count is `1 << midstate_count_bits`, a
successful `send_work` writes to the work TX FIFO exactly `work_id, nbits,
ntime, merkle_root_lsw` followed by, for each midstate in sequence order,
its eight 32-bit words in reverse word order; the returned id is the
allocated `work_id` and the counter advances with u16 wrap. -/
theorem C5_send_work_fifo_words (s : HChainCtl) (work : MiningWork)
    (hlen : work.midstates.length = 1 <<< s.midstate_count_bits) :
    send_work s (.ok ()) work =
      (.ok s.work_id,
       { s with work_id := (s.work_id + (1 <<< s.midstate_count_bits)) % 2 ^ 16 },
       [s.work_id, work.nbits, work.ntime, work.merkel_root_lsw] ++
         work.midstates.flatMap (fun m => (u256_as_u32_slice m).reverse)) :=
  send_work_ok_eq s work

/-- Witness for C5: one midstate, `midstate_count_bits = 0`. -/
theorem C5_send_work_fifo_words_witness :
    ({ nbits := 10, ntime := 11, merkel_root_lsw := 12,
       midstates := [{ limbs := [0x1111111100000000, 3, 4, 5] }] } :
        MiningWork).midstates.length =
      1 <<< ({ work_id := 7, chip_count := 1, midstate_count_bits := 0 } :
        HChainCtl).midstate_count_bits ∧
    send_work { work_id := 7, chip_count := 1, midstate_count_bits := 0 } (.ok ())
        { nbits := 10, ntime := 11, merkel_root_lsw := 12,
          midstates := [{ limbs := [0x1111111100000000, 3, 4, 5] }] } =
      (.ok 7, { work_id := 8, chip_count := 1, midstate_count_bits := 0 },
       [7, 10, 11, 12] ++
         ([{ limbs := [0x1111111100000000, 3, 4, 5] }] : List U256).flatMap
           (fun m => (u256_as_u32_slice m).reverse)) :=
  ⟨by decide,
   C5_send_work_fifo_words
     { work_id := 7, chip_count := 1, midstate_count_bits := 0 }
     { nbits := 10, ntime := 11, merkel_root_lsw := 12,
       midstates := [{ limbs := [0x1111111100000000, 3, 4, 5] }] } (by decide)⟩

/-- Serializing the midstates yields eight words per midstate. -/
lemma flatMap_reverse_slice_length (ms : List U256) :
    (ms.flatMap fun m => (u256_as_u32_slice m).reverse).length = 8 * ms.length := by
  induction ms with
  | nil => simp
  | cons m ms ih =>
    rw [List.flatMap_cons, List.length_append, ih]
    have h8 : ((u256_as_u32_slice m).reverse).length = 8 := by
      simp [u256_as_u32_slice]
    rw [List.length_cons, h8]
    omega

/-- C2 fails on the code: `send_work` contains no midstates-length check.
A work with zero midstates (≠ `1 << 0`) is accepted (returns `Ok`) and FIFO
writes do occur. -/
theorem C2_counterexample :
    (([] : List U256).length ≠ 1 <<< (0 : Nat)) ∧
    (send_work { work_id := 0, chip_count := 0, midstate_count_bits := 0 } (.ok ())
        { nbits := 0, ntime := 0, merkel_root_lsw := 0, midstates := [] }).1 =
      .ok 0 ∧
    (send_work { work_id := 0, chip_count := 0, midstate_count_bits := 0 } (.ok ())
        { nbits := 0, ntime := 0, merkel_root_lsw := 0, midstates := [] }).2.2 ≠
      [] := by
  refine ⟨by decide, rfl, by decide⟩

/-- C2 amended: `send_work` performs no validation of the midstates length.
For every state and every work — whatever `midstates.len()` — when the
heartbeat step succeeds it returns `Ok` with the allocated work id and
writes `4 + 8 * midstates.len()` words to the work TX FIFO. -/
theorem C2_amended_no_length_check (s : HChainCtl) (work : MiningWork) :
    (send_work s (.ok ()) work).1 = .ok s.work_id ∧
    (send_work s (.ok ()) work).2.2.length = 4 + 8 * work.midstates.length := by
  rw [send_work_ok_eq]
  refine ⟨rfl, ?_⟩
  rw [List.length_append, flatMap_reverse_slice_length]
  simp

/-- C7 fails on the code: `send_work` allocates the work id *before* the
heartbeat tick, so a failing heartbeat returns an error with the counter
already advanced (from 0 to 1 here), not unchanged. -/
theorem C7_counterexample :
    (send_work { work_id := 0, chip_count := 0, midstate_count_bits := 0 }
        (.error { kind := .other })
        { nbits := 0, ntime := 0, merkel_root_lsw := 0, midstates := [] }).1 =
      .error { kind := .other } ∧
    (send_work { work_id := 0, chip_count := 0, midstate_count_bits := 0 }
        (.error { kind := .other })
        { nbits := 0, ntime := 0, merkel_root_lsw := 0, midstates := [] }).2.1.work_id =
      1 ∧
    (1 : Nat) ≠ 0 := by
  refine ⟨rfl, rfl, by decide⟩

/-- C7 amended: the work id is allocated before the heartbeat tick; when the
heartbeat fails, `send_work` returns the error with no FIFO write performed,
but the counter has already advanced by `1 << midstate_count_bits` modulo
`2^16` — the aborted operation consumes a work id. -/
theorem C7_amended_alloc_before_heartbeat (s : HChainCtl) (e : IoErr)
    (work : MiningWork) :
    send_work s (.error e) work =
      (.error e,
       { s with work_id := (s.work_id + (1 <<< s.midstate_count_bits)) % 2 ^ 16 },
       []) := by
  simp [send_work, next_work_id]

/-- C10: every work id returned by a successful `send_work` is the 16-bit
internal counter zero-extended, hence strictly below `2^16`. -/
theorem C10_work_id_bounded (s : HChainCtl) (hb : Except IoErr Unit)
    (work : MiningWork) (wid : Nat) (hs : s.work_id < 2 ^ 16)
    (h : (send_work s hb work).1 = .ok wid) :
    wid = s.work_id ∧ wid < 2 ^ 16 := by
  match hb with
  | .error e => simp [send_work, next_work_id] at h
  | .ok u =>
    rw [send_work_ok_eq] at h
    cases h
    exact ⟨rfl, hs⟩

/-- Witness for C10. -/
theorem C10_work_id_bounded_witness :
    ({ work_id := 65535, chip_count := 1, midstate_count_bits := 2 } :
        HChainCtl).work_id < 2 ^ 16 ∧
    ((65535 : Nat) = ({ work_id := 65535, chip_count := 1, midstate_count_bits := 2 } :
        HChainCtl).work_id ∧ (65535 : Nat) < 2 ^ 16) :=
  ⟨by decide,
   C10_work_id_bounded { work_id := 65535, chip_count := 1, midstate_count_bits := 2 }
     (.ok ()) { nbits := 0, ntime := 0, merkel_root_lsw := 0, midstates := [] }
     65535 (by decide) rfl⟩

/-- Iterates `send_work` (with succeeding heartbeats and a fixed work) `n`
times on one controller, collecting the returned work ids. -/
def sendN (w : MiningWork) : HChainCtl → Nat → List Nat × HChainCtl
  | s, 0 => ([], s)
  | s, n + 1 =>
    match send_work s (.ok ()) w with
    | (.ok wid, s2, _) =>
      let r := sendN w s2 n
      (wid :: r.1, r.2)
    | (.error _, s2, _) => ([], s2)

/-- Closed form of the ids returned by `n` consecutive successful
`send_work` calls. -/
lemma sendN_ids (w : MiningWork) (s : HChainCtl) (n : Nat)
    (hs : s.work_id < 2 ^ 16) :
    (sendN w s n).1 = (List.range n).map
      (fun i => (s.work_id + i * (1 <<< s.midstate_count_bits)) % 2 ^ 16) := by
  induction n generalizing s with
  | zero => simp [sendN]
  | succ n ih =>
    have hlt : ((s.work_id + (1 <<< s.midstate_count_bits)) % 2 ^ 16) < 2 ^ 16 :=
      Nat.mod_lt _ (by norm_num)
    rw [sendN, send_work_ok_eq]
    dsimp only
    rw [ih { s with work_id := (s.work_id + (1 <<< s.midstate_count_bits)) % 2 ^ 16 } hlt,
      List.range_succ_eq_map]
    simp only [List.map_cons, List.map_map]
    refine congrArg₂ _ ?_ ?_
    · simpa using (Nat.mod_eq_of_lt hs).symm
    · refine List.map_congr_left fun i _ => ?_
      simp only [Function.comp_apply]
      rw [Nat.mod_add_mod]
      congr 1
      rw [Nat.succ_eq_add_one]
      ring

/-- C3: the work ids returned by `k` consecutive successful `send_work`
calls form an arithmetic progression with step `1 << midstate_count_bits`
modulo `2^16`: the i-th returned id is the counter value
`(work_id₀ + i * step) % 2^16`, so each call returns the current counter and
advances it by the step with u16 wrap-around. -/
theorem C3_work_id_progression (w : MiningWork) (s : HChainCtl) (k : Nat)
    (hs : s.work_id < 2 ^ 16) :
    (sendN w s k).1.length = k ∧
    (∀ i, i < k → (sendN w s k).1.getD i 0 =
        (s.work_id + i * (1 <<< s.midstate_count_bits)) % 2 ^ 16) ∧
    (∀ i, i + 1 < k →
      (sendN w s k).1.getD (i + 1) 0 =
        ((sendN w s k).1.getD i 0 + (1 <<< s.midstate_count_bits)) % 2 ^ 16) := by
  rw [sendN_ids w s k hs]
  refine ⟨by simp, fun i hi => ?_, fun i hi => ?_⟩
  · simp [List.getD_eq_getElem?_getD, List.getElem?_map, List.getElem?_range, hi]
  · simp [List.getD_eq_getElem?_getD, List.getElem?_map, List.getElem?_range, hi,
      Nat.lt_of_succ_lt hi]
    congr 1
    ring

/-- Witness for C3: three calls with `midstate_count_bits = 1`. -/
theorem C3_work_id_progression_witness :
    (sendN { nbits := 0, ntime := 0, merkel_root_lsw := 0, midstates := [] }
        { work_id := 65534, chip_count := 1, midstate_count_bits := 1 } 3).1.getD 2 0 =
      (65534 + 2 * (1 <<< (1 : Nat))) % 2 ^ 16 :=
  (C3_work_id_progression
      { nbits := 0, ntime := 0, merkel_root_lsw := 0, midstates := [] }
      { work_id := 65534, chip_count := 1, midstate_count_bits := 1 } 3
      (by decide)).2.1 2 (by decide)

/-- `hal::MiningWorkResult`. -/
structure MiningWorkResult where
  nonce : Nat
  ntime : Option Nat
  midstate_idx : Nat
  result_id : Nat
  deriving DecidableEq, Repr

/-- One RX FIFO read outcome supplied by the environment. The read
primitives (`read_from_work_rx_fifo`, `read_from_cmd_rx_fifo`) poll the
empty bit, sleep 5 ms, re-poll, and produce either a word or a timeout
error; an exhausted environment models a FIFO that stays empty. -/
def readOutcome (reads : List (Except IoErr Nat)) (i : Nat) : Except IoErr Nat :=
  reads.getD i (.error { kind := .timedOut })

/-- `HChainCtl::recv_ctl_cmd_resp`, generic in the response type: two
sequential command RX FIFO reads; a timeout on the first read yields
`Ok(None)` without attempting the second read, any other first-read error
propagates, and every second-read error propagates. `unpack` stands for
`T::unpack_from_slice` on the assembled 6-byte frame (the `bm1387` codec
lives outside this module). Returns the result together with the number of
FIFO reads attempted. -/
def recv_ctl_cmd_resp {T : Type} (unpack : Nat → Nat → Except IoErr T)
    (reads : List (Except IoErr Nat)) : Except IoErr (Option T) × Nat :=
  match readOutcome reads 0 with
  | .error e => if e.kind = .timedOut then (.ok none, 1) else (.error e, 1)
  | .ok w1 =>
    match readOutcome reads 1 with
    | .error e => (.error e, 2)
    | .ok w2 => ((unpack w1 w2).map some, 2)

/-- `HardwareCtl::recv_work_result` for `HChainCtl`: heartbeat tick, then
two work RX FIFO reads with the same two-phase error handling; on success
it builds `MiningWorkResult` with `ntime = None`, the midstate index decoded
from the second word, and `result_id = word2 & 0xffffff`. Returns the
result together with the number of FIFO reads attempted. -/
def recv_work_result (s : HChainCtl) (hb : Except IoErr Unit)
    (reads : List (Except IoErr Nat)) :
    Except IoErr (Option MiningWorkResult) × Nat :=
  match hb with
  | .error e => (.error e, 0)
  | .ok _ =>
    match readOutcome reads 0 with
    | .error e => if e.kind = .timedOut then (.ok none, 1) else (.error e, 1)
    | .ok nonce =>
      match readOutcome reads 1 with
      | .error e => (.error e, 2)
      | .ok word2 =>
        (.ok (some
          { nonce := nonce
            ntime := none
            midstate_idx := get_midstate_idx_from_result_id s.midstate_count_bits word2
            result_id := word2 &&& 0xffffff }), 2)

/-- C4: in both two-word receives, a timeout on the first FIFO read returns
`Ok(None)` with the second read never attempted (one read consumed); a
non-timeout error on the first read propagates; any error on the second
read, timeout included, propagates. -/
theorem C4_two_phase_recv {T : Type} (unpack : Nat → Nat → Except IoErr T)
    (s : HChainCtl) (e : IoErr) (w : Nat) (rest : List (Except IoErr Nat)) :
    (e.kind = .timedOut →
      recv_ctl_cmd_resp unpack (.error e :: rest) = (.ok none, 1) ∧
      recv_work_result s (.ok ()) (.error e :: rest) = (.ok none, 1)) ∧
    (e.kind ≠ .timedOut →
      recv_ctl_cmd_resp unpack (.error e :: rest) = (.error e, 1) ∧
      recv_work_result s (.ok ()) (.error e :: rest) = (.error e, 1)) ∧
    (recv_ctl_cmd_resp unpack (.ok w :: .error e :: rest) = (.error e, 2) ∧
     recv_work_result s (.ok ()) (.ok w :: .error e :: rest) = (.error e, 2)) := by
  refine ⟨fun h => ?_, fun h => ?_, ?_⟩ <;>
    simp [recv_ctl_cmd_resp, recv_work_result, readOutcome, *]

/-- Witness for C4: a timed-out first read yields an absent response after
a single read. -/
theorem C4_two_phase_recv_witness :
    recv_ctl_cmd_resp (fun w1 w2 => .ok (w1 + w2))
        [.error { kind := .timedOut }] = (.ok none, 1) ∧
    recv_work_result { work_id := 0, chip_count := 1, midstate_count_bits := 0 }
        (.ok ()) [.error { kind := .timedOut }] = (.ok none, 1) :=
  (C4_two_phase_recv (fun w1 w2 => .ok (w1 + w2))
      { work_id := 0, chip_count := 1, midstate_count_bits := 0 }
      { kind := .timedOut } 0 []).1 rfl

/-- Modelled from the spec: the chip revision carried by the
`bm1387::GetAddressReg` response (the `bm1387` codec module is not part of
this source file); the enumeration requires it to equal `Bm1387`. -/
inductive ChipRev where
  | Bm1387
  | unknown
  deriving DecidableEq, Repr

/-- Modelled from the spec: the `bm1387::GetAddressReg` response, carrying
the chip revision and addressing metadata. -/
structure GetAddressReg where
  chip_rev : ChipRev
  addr : Nat
  deriving DecidableEq, Repr

/-- Errors surfaced by `enumerate_chips`. -/
inductive EnumError where
  | io (e : IoErr)
  | badChipRev (idx : Nat)
  | tooManyChips (n : Nat)
  | noChips
  | noChipsToIterate
  deriving DecidableEq, Repr

/-- The discovery loop of `enumerate_chips`:
`while let Some(addr_reg) = self.recv_ctl_cmd_resp()? { ... }` over the
stream of decoded responses: each present `Bm1387` response increments the
chip count, a non-`Bm1387` revision aborts the enumeration, a receive error
propagates, an absent response ends the loop. An exhausted stream models a
command RX FIFO that stays empty (timeout, hence absent). -/
def enumerate_chips_loop :
    List (Except IoErr (Option GetAddressReg)) → Nat → Except EnumError Nat
  | [], chip_count => .ok chip_count
  | .error e :: _, _ => .error (.io e)
  | .ok none :: _, chip_count => .ok chip_count
  | .ok (some addr_reg) :: rest, chip_count =>
    if addr_reg.chip_rev ≠ ChipRev.Bm1387 then .error (.badChipRev chip_count)
    else enumerate_chips_loop rest (chip_count + 1)

/-- `HChainCtl::for_all_chips` specialized to an always-succeeding body (as
used for `SetChipAddress` during enumeration): iterates the addresses
`0, 4, ..., 4*(chip_count-1)`; with zero chips the initial "no chips to
iterate" error is returned. -/
def for_all_chips (chip_count : Nat) : Except EnumError (List Nat) :=
  if chip_count = 0 then .error .noChipsToIterate
  else .ok ((List.range chip_count).map (4 * ·))

/-- `HChainCtl::enumerate_chips`: the discovery loop, a heartbeat, the
chip-count bounds checks (`>= MAX_CHIPS_ON_CHAIN` first, then `== 0`, in
source order), the triple `InactivateFromChain` broadcast (command TX
writes cannot fail), a heartbeat, the per-chip `SetChipAddress` pass via
`for_all_chips`, and a final heartbeat. The three heartbeat outcomes come
from the environment. Returns the final `chip_count`. -/
def enumerate_chips (responses : List (Except IoErr (Option GetAddressReg)))
    (hb1 hb2 hb3 : Except IoErr Unit) : Except EnumError Nat :=
  match enumerate_chips_loop responses 0 with
  | .error e => .error e
  | .ok chip_count =>
    match hb1 with
    | .error e => .error (.io e)
    | .ok _ =>
      if MAX_CHIPS_ON_CHAIN ≤ chip_count then .error (.tooManyChips chip_count)
      else if chip_count = 0 then .error .noChips
      else
        match hb2 with
        | .error e => .error (.io e)
        | .ok _ =>
          match for_all_chips chip_count with
          | .error e => .error e
          | .ok _ =>
            match hb3 with
            | .error e => .error (.io e)
            | .ok _ => .ok chip_count

/-- C6: each present `Bm1387` response increments the chip count; a
response with a different revision fails the enumeration; once responses
cease, a zero count yields the "no chips" error and a count `≥ 64` the
"too many" error; consequently every successful enumeration ends with
`0 < chip_count < 64`. -/
theorem C6_enumerate_chips_bounds
    (responses : List (Except IoErr (Option GetAddressReg)))
    (hb1 hb2 hb3 : Except IoErr Unit) (r : GetAddressReg)
    (rest : List (Except IoErr (Option GetAddressReg))) (n count : Nat) :
    (r.chip_rev = ChipRev.Bm1387 →
      enumerate_chips_loop (.ok (some r) :: rest) n =
        enumerate_chips_loop rest (n + 1)) ∧
    (r.chip_rev ≠ ChipRev.Bm1387 →
      enumerate_chips_loop (.ok (some r) :: rest) n = .error (.badChipRev n)) ∧
    (enumerate_chips_loop responses 0 = .ok 0 → hb1 = .ok () →
      enumerate_chips responses hb1 hb2 hb3 = .error .noChips) ∧
    (enumerate_chips_loop responses 0 = .ok count → hb1 = .ok () → 64 ≤ count →
      enumerate_chips responses hb1 hb2 hb3 = .error (.tooManyChips count)) ∧
    (∀ c, enumerate_chips responses hb1 hb2 hb3 = .ok c → 0 < c ∧ c < 64) := by
  refine ⟨fun h => ?_, fun h => ?_, fun h h1 => ?_, fun h h1 h64 => ?_, fun c hc => ?_⟩
  · simp [enumerate_chips_loop, h]
  · simp [enumerate_chips_loop, h]
  · subst h1
    simp [enumerate_chips, h, MAX_CHIPS_ON_CHAIN]
  · subst h1
    simp [enumerate_chips, h, MAX_CHIPS_ON_CHAIN, h64, Nat.not_lt.mpr]
  · cases hloop : enumerate_chips_loop responses 0 with
    | error e => simp [enumerate_chips, hloop] at hc
    | ok count2 =>
      cases hb1 with
      | error e => simp [enumerate_chips, hloop] at hc
      | ok u1 =>
        by_cases h64 : 64 ≤ count2
        · simp [enumerate_chips, hloop, MAX_CHIPS_ON_CHAIN, h64] at hc
        · by_cases h0 : count2 = 0
          · simp [enumerate_chips, hloop, MAX_CHIPS_ON_CHAIN, h64, h0] at hc
          · cases hb2 with
            | error e => simp [enumerate_chips, hloop, MAX_CHIPS_ON_CHAIN, h64, h0] at hc
            | ok u2 =>
              cases hb3 with
              | error e =>
                simp [enumerate_chips, hloop, MAX_CHIPS_ON_CHAIN, h64, h0,
                  for_all_chips] at hc
              | ok u3 =>
                simp [enumerate_chips, hloop, MAX_CHIPS_ON_CHAIN, h64, h0,
                  for_all_chips] at hc
                omega

/-- Witness for C6: one good response then silence enumerates one chip. -/
theorem C6_enumerate_chips_bounds_witness : (0 : Nat) < 1 ∧ (1 : Nat) < 64 :=
  (C6_enumerate_chips_bounds
      [.ok (some { chip_rev := .Bm1387, addr := 0 }), .ok none]
      (.ok ()) (.ok ()) (.ok ()) { chip_rev := .Bm1387, addr := 0 } [] 0 1).2.2.2.2
    1 rfl

/-- The IP core registers the driver writes during bring-up (the subset of
`s9_io::hchainio0::RegisterBlock` this module touches; the generated
peripheral-access crate lives outside this module). `midstate_cnt` is the
2-bit `MIDSTATE_CNT` field of `ctrl_reg` (values ONE/TWO/FOUR). -/
structure IpCore where
  enable : Bool
  midstate_cnt : Nat
  work_time : Nat
  baud : Nat
  deriving DecidableEq, Repr

/-- `HChainCtl::enable_ip_core`: read-modify-write setting `ctrl_reg.enable`. -/
def enable_ip_core (r : IpCore) : IpCore :=
  { r with enable := true }

/-- `HChainCtl::disable_ip_core`: read-modify-write clearing `ctrl_reg.enable`. -/
def disable_ip_core (r : IpCore) : IpCore :=
  { r with enable := false }

/-- `HChainCtl::set_work_time`: raw write of `work_time`. -/
def set_work_time (r : IpCore) (work_time : Nat) : IpCore :=
  { r with work_time := work_time }

/-- `HChainCtl::set_baud`: writes the fixed divisor constant `0x1b`,
ignoring its `_baud` argument. -/
def set_baud (r : IpCore) (_baud : Nat) : IpCore :=
  { r with baud := 0x1b }

/-- `HChainCtl::set_midstate_count`: read-modify-write of the 2-bit
`midstate_cnt` field of `ctrl_reg` with `self.midstate_count_bits` (the
field write masks to the field width). -/
def set_midstate_count (r : IpCore) (midstate_count_bits : Nat) : IpCore :=
  { r with midstate_cnt := midstate_count_bits % 4 }

/-- `HChainCtl::ip_core_init`: disable, enable, `set_baud(115200)`,
`set_work_time(50000)`, `set_midstate_count()`, in source order. -/
def ip_core_init (midstate_count_bits : Nat) (r : IpCore) : IpCore :=
  set_midstate_count
    (set_work_time (set_baud (enable_ip_core (disable_ip_core r)) 115200) 50000)
    midstate_count_bits

/-- C8: `set_baud` writes the fixed divisor `0x1b` whatever rate is asked
for, and after `ip_core_init` the registers hold `work_time = 50000`,
`baud_reg = 0x1b` and `ctrl_reg.midstate_cnt` equal to the configured
`midstate_count_bits`. -/
theorem C8_fixed_baud_and_init_registers (r : IpCore)
    (rate midstate_count_bits : Nat) (hm : midstate_count_bits ≤ 2) :
    (set_baud r rate).baud = 0x1b ∧
    (ip_core_init midstate_count_bits r).work_time = 50000 ∧
    (ip_core_init midstate_count_bits r).baud = 0x1b ∧
    (ip_core_init midstate_count_bits r).midstate_cnt = midstate_count_bits := by
  refine ⟨rfl, rfl, rfl, ?_⟩
  simp only [ip_core_init, set_midstate_count, set_work_time, set_baud,
    enable_ip_core, disable_ip_core]
  omega

/-- Witness for C8 at `rate = 9600`, `midstate_count_bits = 2`. -/
theorem C8_fixed_baud_and_init_registers_witness :
    (set_baud { enable := false, midstate_cnt := 0, work_time := 0, baud := 0 }
        9600).baud = 0x1b ∧
    (ip_core_init 2
        { enable := false, midstate_cnt := 0, work_time := 0, baud := 0 }).work_time =
      50000 ∧
    (ip_core_init 2
        { enable := false, midstate_cnt := 0, work_time := 0, baud := 0 }).baud =
      0x1b ∧
    (ip_core_init 2
        { enable := false, midstate_cnt := 0, work_time := 0, baud := 0 }).midstate_cnt =
      2 :=
  C8_fixed_baud_and_init_registers
    { enable := false, midstate_cnt := 0, work_time := 0, baud := 0 } 9600 2
    (by decide)

/-- The driver-visible reset-related state: the IP core registers plus the
reset pin (`rst = true` means the pin is high, the board is out of reset). -/
structure BoardIo where
  ip : IpCore
  rst : Bool
  deriving DecidableEq, Repr

/-- `HChainCtl::enter_reset` as the sequence of its intermediate states:
first the IP core is disabled, then the reset pin is pulled low. -/
def enter_reset_trace (s : BoardIo) : List BoardIo :=
  let s1 := { s with ip := disable_ip_core s.ip }
  let s2 := { s1 with rst := false }
  [s1, s2]

/-- `HChainCtl::exit_reset` as the sequence of its intermediate states:
first the reset pin is raised, then the IP core is re-enabled. -/
def exit_reset_trace (s : BoardIo) : List BoardIo :=
  let s1 := { s with rst := true }
  let s2 := { s1 with ip := enable_ip_core s1.ip }
  [s1, s2]

/-- `HChainCtl::ip_core_init` as the sequence of its intermediate states
(the reset pin is untouched). -/
def ip_core_init_trace (midstate_count_bits : Nat) (s : BoardIo) : List BoardIo :=
  let s1 := { s with ip := disable_ip_core s.ip }
  let s2 := { s1 with ip := enable_ip_core s1.ip }
  let s3 := { s2 with ip := set_baud s2.ip 115200 }
  let s4 := { s3 with ip := set_work_time s3.ip 50000 }
  let s5 := { s4 with ip := set_midstate_count s4.ip midstate_count_bits }
  [s1, s2, s3, s4, s5]

/-- `HChainCtl::init` restricted to the state it changes on `BoardIo`:
`ip_core_init`, then `enter_reset`, then `exit_reset`, in source order. The
voltage-controller steps, the sleeps, the heartbeats, `enumerate_chips`,
`set_pll` and `configure_hash_chain` interleaved in `init` never touch
`ctrl_reg.enable` or the reset pin, so they add no new `BoardIo` state. The
list holds every intermediate `BoardIo` state of `init`, in order. -/
def init_board_trace (midstate_count_bits : Nat) (s : BoardIo) : List BoardIo :=
  let t1 := ip_core_init_trace midstate_count_bits s
  let s1 := t1.getLastD s
  let t2 := enter_reset_trace s1
  let s2 := t2.getLastD s1
  let t3 := exit_reset_trace s2
  t1 ++ t2 ++ t3

/-- C9: `enter_reset` disables the IP core before pulling `rst` low (from
any state, every low intermediate state of `enter_reset` has the core
disabled); `exit_reset` raises `rst` before re-enabling (every intermediate
state of `exit_reset` has `rst` high); and along the whole of `init`,
started with the reset pin high, every intermediate state with `rst` low
has the IP core disabled — no step of `init` enables the core while the
board is in reset. -/
theorem C9_rst_low_implies_core_disabled (s s2 : BoardIo)
    (midstate_count_bits : Nat) (hrst : s.rst = true) :
    (∀ t ∈ enter_reset_trace s2, t.rst = false → t.ip.enable = false) ∧
    (∀ t ∈ exit_reset_trace s2, t.rst = true) ∧
    (∀ t ∈ init_board_trace midstate_count_bits s,
      t.rst = false → t.ip.enable = false) := by
  refine ⟨?_, ?_, ?_⟩
  · intro t ht
    simp only [enter_reset_trace, List.mem_cons, List.mem_singleton,
      List.not_mem_nil, or_false] at ht
    rcases ht with h | h <;> subst h <;> simp [disable_ip_core]
  · intro t ht
    simp only [exit_reset_trace, List.mem_cons, List.mem_singleton,
      List.not_mem_nil, or_false] at ht
    rcases ht with h | h <;> subst h <;> simp
  · intro t ht
    simp only [init_board_trace, ip_core_init_trace, enter_reset_trace,
      exit_reset_trace, List.getLastD, List.mem_append, List.mem_cons,
      List.mem_singleton, List.not_mem_nil, or_false] at ht
    rcases ht with ((h | h | h | h | h) | h | h) | h | h <;> subst h <;>
      simp [hrst, disable_ip_core, enable_ip_core, set_baud, set_work_time,
        set_midstate_count]

/-- Witness for C9: the state reached right after `enter_reset` inside
`init` has the pin low and the core disabled. -/
theorem C9_rst_low_implies_core_disabled_witness :
    ({ ip := { enable := false, midstate_cnt := 1, work_time := 50000, baud := 0x1b },
       rst := false } : BoardIo).ip.enable = false :=
  (C9_rst_low_implies_core_disabled
      { ip := { enable := false, midstate_cnt := 0, work_time := 0, baud := 0 },
        rst := true }
      { ip := { enable := false, midstate_cnt := 0, work_time := 0, baud := 0 },
        rst := true }
      1 rfl).2.2
    { ip := { enable := false, midstate_cnt := 1, work_time := 50000, baud := 0x1b },
      rst := false }
    (by decide) rfl

end S9
